import Mathlib

/-!
Verification of the process-lifecycle tracking engine, the drift-corrected
scheduler, the metric accumulator conversions, the report selection logic and
the persistence layer of the workflow-telemetry action.

The differencer state machine is embedded from
`src/features/process/backgroundTracer.ts` (`collectProcesses`), the forced
finalization from `src/features/process/processTracer.ts` (`finish`), the
scheduler recurrence from the `finally` blocks of `backgroundTracer.ts` and
`statsDataRepository.ts`, the throughput conversions from the stats collectors
of `statsDataRepository.ts`, the top-K selection from
`src/features/process/chartGenerator.ts`, and the repository load from
`src/features/process/processDataRepository.ts`.

Time stamps are JavaScript epoch milliseconds, embedded as `Int`.  CPU and
memory percentages are JavaScript numbers used only through `Math.max`,
comparison and copying; they are embedded as `ℚ`.  The JavaScript
`Map<number, TrackedProcess>` is embedded as an association list of records in
insertion order, which is exactly the iteration order of a JavaScript `Map`.
-/

namespace WorkflowTelemetry

/-- A tracked (in-flight) process record, from `types.ts` of the process
feature: `pid`, identity fields, `started` (epoch ms) and the running peaks
`pcpu`/`pmem`. -/
structure TrackedProcess where
  pid : Nat
  name : String
  command : String
  params : String
  started : Int
  pcpu : ℚ
  pmem : ℚ
  deriving Repr, DecidableEq

/-- A completed process record, from `types.ts` of the process feature. -/
structure CompletedProcess where
  pid : Nat
  name : String
  command : String
  params : String
  started : Int
  ended : Int
  duration : Int
  maxCpu : ℚ
  maxMem : ℚ
  deriving Repr, DecidableEq

/-- One entry of the provider's process list (`si.processes().list`).  Fields
that JavaScript may report as `undefined` (or that are falsy) are embedded as
`Option`; `none` stands for a missing value.  The provider's `started` string
is embedded already converted to epoch milliseconds. -/
structure ProcSnapshot where
  pid : Nat
  name : Option String
  command : Option String
  params : Option String
  started : Option Int
  cpu : Option ℚ
  mem : Option ℚ
  deriving Repr, DecidableEq

/-- The mutable state of the background tracer: the tracked map (as an
insertion-ordered association list) and the completed list. -/
structure TracerState where
  tracked : List TrackedProcess
  completed : List CompletedProcess
  deriving Repr, DecidableEq

/-- The initial state of `ProcessBackgroundTracer`: no tracked and no
completed processes. -/
def emptyState : TracerState := { tracked := [], completed := [] }

/-- JavaScript `s || d` for an optional string: `undefined` and the empty
string are falsy. -/
def jsOr (s : Option String) (d : String) : String :=
  match s with
  | none => d
  | some v => if v = "" then d else v

/-- One iteration of the first loop of `collectProcesses`
(`backgroundTracer.ts` lines 29-51): skip a falsy pid, update the peaks of an
already-tracked pid with `Math.max(existing, observed || 0)`, or insert a new
`TrackedProcess` whose `started` falls back to `now` when the provider reports
none. -/
def updateTracked (now : Int) (tracked : List TrackedProcess) (p : ProcSnapshot) :
    List TrackedProcess :=
  if p.pid = 0 then tracked
  else if tracked.any (fun t => t.pid == p.pid) then
    tracked.map (fun t =>
      if t.pid == p.pid then
        { t with pcpu := max t.pcpu (p.cpu.getD 0), pmem := max t.pmem (p.mem.getD 0) }
      else t)
  else
    tracked ++ [{ pid := p.pid
                  name := jsOr p.name "unknown"
                  command := jsOr p.command ""
                  params := jsOr p.params ""
                  started := p.started.getD now
                  pcpu := p.cpu.getD 0
                  pmem := p.mem.getD 0 }]

/-- The `currentPids` set built by `collectProcesses`: the pids of the
snapshot entries, skipping falsy (zero) pids. -/
def currentPids (snapshot : List ProcSnapshot) : List Nat :=
  (snapshot.filter (fun p => p.pid != 0)).map (fun p => p.pid)

/-- The completed record pushed for a tracked process that disappeared
(`backgroundTracer.ts` lines 56-66): `ended = now`,
`duration = now - started`, peaks copied. -/
def completeAt (now : Int) (t : TrackedProcess) : CompletedProcess :=
  { pid := t.pid
    name := t.name
    command := t.command
    params := t.params
    started := t.started
    ended := now
    duration := now - t.started
    maxCpu := t.pcpu
    maxMem := t.pmem }

/-- One tick of the differencer, `ProcessBackgroundTracer.collectProcesses`
(`backgroundTracer.ts` lines 22-72): first the update/insert loop over the
provider snapshot, then the completion sweep that moves every tracked pid not
in `currentPids` to the completed list (in tracked-map iteration order) and
removes it from the tracked map. -/
def collectProcesses (now : Int) (snapshot : List ProcSnapshot) (s : TracerState) :
    TracerState :=
  let tracked1 := snapshot.foldl (updateTracked now) s.tracked
  let pids := currentPids snapshot
  { tracked := tracked1.filter (fun t => pids.contains t.pid)
    completed := s.completed ++
      (tracked1.filter (fun t => !(pids.contains t.pid))).map (completeAt now) }

/-- A tick as observed by the differencer: the observation time `Date.now()`
paired with the provider's process list at that moment. -/
abbrev Tick := Int × List ProcSnapshot

/-- Runs a sequence of differencer ticks from a starting state. -/
def runTicks (s : TracerState) : List Tick → TracerState
  | [] => s
  | tk :: rest => runTicks (collectProcesses tk.1 tk.2 s) rest

/-- The forced-finalization loop of `finish` (`processTracer.ts` lines
196-211): every remaining tracked process is pushed to completed with the
single finalize time `now`, then the tracked map is cleared. -/
def finish (now : Int) (s : TracerState) : TracerState :=
  { tracked := []
    completed := s.completed ++ s.tracked.map (completeAt now) }

/-- One step of the drift-corrected scheduler recurrence, from the `finally`
block of `collectProcesses` (`backgroundTracer.ts` lines 75-83) and of
`collectStats` (`statsDataRepository.ts` lines 227-232): after a tick
completes at time `tEnd`, the scheduler does `expectedScheduleTime += F` and
calls `setTimeout` with delay `expectedScheduleTime - Date.now()`; `setTimeout`
clamps a negative delay to an immediate firing, so the next tick fires at
`tEnd + max 0 (expected + F - tEnd)`.  `schedTrace F expected fire durs`
returns, for each tick, the pair (time at which the tick fires,
`expectedScheduleTime` as set when that tick completes), where `durs` lists
the work durations of the ticks. -/
def schedTrace (F : Int) (expected fire : Int) : List Int → List (Int × Int)
  | [] => []
  | d :: durs =>
    (fire, expected + F) ::
      schedTrace F (expected + F) ((fire + d) + max 0 ((expected + F) - (fire + d))) durs

/-- The elapsed-interval computation of `collectStats` (`statsDataRepository.ts`
lines 212-215): `statCollectTime ? currentTime - statCollectTime : 0`.  The
field starts at `0`, which is falsy, so the first tick of a run gets interval
`0`. -/
def timeIntervalOf (statCollectTime currentTime : Int) : Int :=
  if statCollectTime = 0 then 0 else currentTime - statCollectTime

/-- One per-interface reading of `si.networkStats()`: bytes-per-second rates. -/
structure NetworkStatsData where
  rx_sec : ℚ
  tx_sec : ℚ
  deriving Repr, DecidableEq

/-- A network histogram sample (`NetworkStats` of `stats/types.ts`). -/
structure NetworkStats where
  time : Int
  rxMb : Int
  txMb : Int
  deriving Repr, DecidableEq

/-- The reading of `si.fsStats()`; the rates may be absent (`rx_sec ?? 0` in
the source). -/
structure FsStatsData where
  rx_sec : Option ℚ
  wx_sec : Option ℚ
  deriving Repr, DecidableEq

/-- A disk I/O histogram sample (`DiskStats` of `stats/types.ts`). -/
structure DiskStats where
  time : Int
  rxMb : Int
  wxMb : Int
  deriving Repr, DecidableEq

/-- The network transform of `StatsBackgroundCollector.statsCollectors`
(`statsDataRepository.ts` lines 125-141): sum the per-interface rates, then
convert rate to volume with
`Math.floor(totalRxSec * (timeInterval / 1000) / 1024 / 1024)`. -/
def networkTransform (data : List NetworkStatsData) (statTime : Int)
    (timeInterval : Int) : NetworkStats :=
  let totalRxSec : ℚ := (data.map (fun d => d.rx_sec)).sum
  let totalTxSec : ℚ := (data.map (fun d => d.tx_sec)).sum
  { time := statTime
    rxMb := Int.floor (totalRxSec * ((timeInterval : ℚ) / 1000) / 1024 / 1024)
    txMb := Int.floor (totalTxSec * ((timeInterval : ℚ) / 1000) / 1024 / 1024) }

/-- The disk transform of `StatsBackgroundCollector.statsCollectors`
(`statsDataRepository.ts` lines 147-159): missing rates default to `0`, then
the same rate-to-volume conversion. -/
def diskTransform (data : FsStatsData) (statTime : Int) (timeInterval : Int) :
    DiskStats :=
  { time := statTime
    rxMb := Int.floor ((data.rx_sec.getD 0) * ((timeInterval : ℚ) / 1000) / 1024 / 1024)
    wxMb := Int.floor ((data.wx_sec.getD 0) * ((timeInterval : ℚ) / 1000) / 1024 / 1024) }

/-- The descending-duration comparison of the chart selection
(`chartGenerator.ts` line 37): the comparator `-(a.duration - b.duration)`
keeps `a` before `b` exactly when `b.duration ≤ a.duration`. -/
def durDesc (a b : CompletedProcess) : Prop := b.duration ≤ a.duration

instance : DecidableRel durDesc := fun a b =>
  inferInstanceAs (Decidable (b.duration ≤ a.duration))

instance : IsTotal CompletedProcess durDesc :=
  ⟨fun a b => le_total b.duration a.duration⟩

instance : IsTrans CompletedProcess durDesc :=
  ⟨fun _ _ _ hab hbc => le_trans hbc hab⟩

/-- The ascending-start comparison of the chart selection
(`chartGenerator.ts` line 39). -/
def startAsc (a b : CompletedProcess) : Prop := a.started ≤ b.started

instance : DecidableRel startAsc := fun a b =>
  inferInstanceAs (Decidable (a.started ≤ b.started))

instance : IsTotal CompletedProcess startAsc :=
  ⟨fun a b => le_total a.started b.started⟩

instance : IsTrans CompletedProcess startAsc :=
  ⟨fun _ _ _ hab hbc => le_trans hab hbc⟩

/-- `ProcessChartGenerator.selectTopProcessesByDuration` (`chartGenerator.ts`
lines 32-40): stable-sort descending by duration, take the first `maxCount`,
then stable-sort that subset ascending by start time.  JavaScript
`Array.prototype.sort` is a stable sort, and the output of a stable sort for
a total transitive comparison is unique, so it is embedded with insertion
sort, which is stable. -/
def selectTopProcessesByDuration (processes : List CompletedProcess)
    (maxCount : Nat) : List CompletedProcess :=
  ((processes.insertionSort durDesc).take maxCount).insertionSort startAsc

/-- The parse outcome of the persisted process document as seen by
`ProcessDataRepository.load`: the file may be missing (`existsSync` false),
unreadable or unparseable (`readFileSync`/`JSON.parse` throws), or parsed with
each of the two fields possibly absent (falsy). -/
inductive PersistedDoc where
  | missing
  | corrupt
  | parsed (completed : Option (List CompletedProcess))
      (tracked : Option (List TrackedProcess))
  deriving Repr, DecidableEq

/-- `ProcessDataRepository.load` (`processDataRepository.ts` lines 26-40):
a missing document returns the empty state, a thrown parse error is caught and
returns the empty state, and absent fields default to `[]` (the
`data.completed || []` fallbacks).  The embedding is a total function: every
outcome of the underlying I/O is mapped to a state, which is the shallow form
of "never throws". -/
def load : PersistedDoc → TracerState
  | .missing => { completed := [], tracked := [] }
  | .corrupt => { completed := [], tracked := [] }
  | .parsed c t => { completed := c.getD [], tracked := t.getD [] }

/-- The span rendered for one row of the legacy Gantt chart
(`processTracer.ts` lines 288-293): the emitted pair is
`${Math.min(startTime, finishTime)}, ${finishTime}`. -/
def ganttSpan (proc : CompletedProcess) : Int × Int :=
  (min proc.started proc.ended, proc.ended)

/-- How a tracked record may change while its process stays alive across
ticks: the pid, the identity fields and the start time are untouched and the
peaks can only grow. -/
def Evolves (a b : TrackedProcess) : Prop :=
  b.pid = a.pid ∧ b.name = a.name ∧ b.command = a.command ∧ b.params = a.params
    ∧ b.started = a.started ∧ a.pcpu ≤ b.pcpu ∧ a.pmem ≤ b.pmem

/-- Observation times of a tick sequence are non-decreasing, starting from a
lower bound `t0`. -/
def timesMono : Int → List Tick → Bool
  | _, [] => true
  | t0, tk :: rest => (decide (t0 ≤ tk.1)) && timesMono tk.1 rest

/-- No snapshot entry of the tick sequence carries a provider-reported start
time, so every tracked record's `started` is taken from the observation
clock. -/
def noProviderStart (ticks : List Tick) : Bool :=
  ticks.all (fun tk => tk.2.all (fun p => p.started.isNone))

/-- The observation time of the last tick of the sequence (`t0` when the
sequence is empty). -/
def lastTickTime : Int → List Tick → Int
  | t0, [] => t0
  | _, tk :: rest => lastTickTime tk.1 rest

/-- A provider entry for pid 1 with no reported metrics and no reported start
time. -/
def snapP1 : ProcSnapshot := ⟨1, none, none, none, none, none, none⟩

/-- A tick sequence exhibiting pid reuse: pid 1 is seen, disappears (and is
completed), then a new process with the same pid number appears. -/
def reuseTicks : List Tick := [(0, [snapP1]), (1, []), (2, [snapP1])]

/-- A tick sequence without pid reuse: pid 1 is seen once and then
disappears. -/
def plainTicks : List Tick := [(0, [snapP1]), (5, [])]

/-- A tick sequence in which the provider reports a start time (1000) later
than both observation times (10 and 20). -/
def negTicks : List Tick :=
  [(10, [⟨1, none, none, none, some 1000, none, none⟩]), (20, [])]

/-- Five completed processes with durations 100, 500, 300, 700, 200 and start
times 1..5, the top-K selection scenario of the specification. -/
def demoProcs : List CompletedProcess :=
  [⟨1, "a", "", "", 1, 101, 100, 0, 0⟩,
   ⟨2, "b", "", "", 2, 502, 500, 0, 0⟩,
   ⟨3, "c", "", "", 3, 303, 300, 0, 0⟩,
   ⟨4, "d", "", "", 4, 704, 700, 0, 0⟩,
   ⟨5, "e", "", "", 5, 205, 200, 0, 0⟩]

/-- The duration-700 record of `demoProcs`. -/
def demoTop : CompletedProcess := ⟨4, "d", "", "", 4, 704, 700, 0, 0⟩

/-- The duration-200 record of `demoProcs`. -/
def demoLow : CompletedProcess := ⟨5, "e", "", "", 5, 205, 200, 0, 0⟩

/-- A tracked record for pid 1 with start time 5 and peaks 2 and 3. -/
def sampleTracked : TrackedProcess := ⟨1, "a", "", "", 5, 2, 3⟩

/-- A tracer state holding only `sampleTracked`. -/
def sampleState : TracerState := ⟨[sampleTracked], []⟩

/-- A provider entry observing pid 1 with cpu 7 and mem 1. -/
def sampleObs : ProcSnapshot := ⟨1, none, none, none, none, some 7, some 1⟩

lemma mem_currentPids_iff {snapshot : List ProcSnapshot} {q : Nat} :
    q ∈ currentPids snapshot ↔ ∃ p ∈ snapshot, p.pid ≠ 0 ∧ p.pid = q := by
  simp [currentPids, List.mem_map, List.mem_filter, and_assoc]

lemma tracked_mem_currentPids {now : Int} {snap : List ProcSnapshot}
    {s : TracerState} {t : TrackedProcess}
    (ht : t ∈ (collectProcesses now snap s).tracked) : t.pid ∈ currentPids snap := by
  simp only [collectProcesses, List.mem_filter] at ht
  simpa using ht.2

lemma collect_completed_cases {now : Int} {snap : List ProcSnapshot}
    {s : TracerState} {c : CompletedProcess}
    (hc : c ∈ (collectProcesses now snap s).completed) :
    c ∈ s.completed ∨ c.pid ∉ currentPids snap := by
  simp only [collectProcesses, List.mem_append, List.mem_map, List.mem_filter] at hc
  rcases hc with hold | ⟨u, ⟨_, hu⟩, rfl⟩
  · exact Or.inl hold
  · refine Or.inr ?_
    intro hmem
    rw [show (completeAt now u).pid = u.pid from rfl] at hmem
    simp [hmem] at hu

lemma collect_disjoint (now : Int) (snap : List ProcSnapshot) (s : TracerState)
    (hnoreuse : ∀ c ∈ s.completed, ∀ p ∈ snap, c.pid ≠ p.pid) :
    ∀ c ∈ (collectProcesses now snap s).completed,
      ∀ t ∈ (collectProcesses now snap s).tracked, c.pid ≠ t.pid := by
  intro c hc t ht hct
  have htmem : t.pid ∈ currentPids snap := tracked_mem_currentPids ht
  rcases collect_completed_cases hc with hold | hnot
  · obtain ⟨p, hp, -, hpe⟩ := mem_currentPids_iff.mp htmem
    exact hnoreuse c hold p hp (hct.trans hpe.symm)
  · exact hnot (hct ▸ htmem)

lemma runTicks_append (l1 l2 : List Tick) :
    ∀ s : TracerState, runTicks s (l1 ++ l2) = runTicks (runTicks s l1) l2 := by
  induction l1 with
  | nil => intro s; rfl
  | cons tk rest ih => intro s; simp only [List.cons_append, runTicks]; exact ih _

lemma runTicks_completed_mono (l : List Tick) :
    ∀ s : TracerState, ∃ r, (runTicks s l).completed = s.completed ++ r := by
  induction l with
  | nil => intro s; exact ⟨[], (List.append_nil _).symm⟩
  | cons tk rest ih =>
    intro s
    obtain ⟨r, hr⟩ := ih (collectProcesses tk.1 tk.2 s)
    refine ⟨((tk.2.foldl (updateTracked tk.1) s.tracked).filter
        (fun t => !((currentPids tk.2).contains t.pid))).map (completeAt tk.1) ++ r, ?_⟩
    rw [runTicks, hr, collectProcesses, List.append_assoc]

/-- C1 (amended).  For every tick sequence in which no snapshot re-lists a pid
that is already in the completed list (no pid reuse), after each tick no pid
is simultaneously present in the tracked map and the completed list; moreover
completed records are never removed, only appended, so a record moved to
completed stays there. -/
theorem c1_lifecycle_exclusivity (ticks : List Tick) (n : Nat)
    (hnoreuse : ∀ k, k < n →
      ∀ c ∈ (runTicks emptyState (ticks.take k)).completed,
        ∀ p ∈ (ticks.getD k (0, [])).2, c.pid ≠ p.pid) :
    (∀ c ∈ (runTicks emptyState (ticks.take n)).completed,
       ∀ t ∈ (runTicks emptyState (ticks.take n)).tracked, c.pid ≠ t.pid)
    ∧ ∃ r, (runTicks emptyState (ticks.take (n + 1))).completed =
        (runTicks emptyState (ticks.take n)).completed ++ r := by
  constructor
  · induction n with
    | zero => intro c hc; exact absurd hc (List.not_mem_nil c)
    | succ m ih =>
      by_cases hlen : m < ticks.length
      · have htk : ticks.take (m + 1) = ticks.take m ++ [ticks[m]] := by
          rw [List.take_succ, List.getElem?_eq_getElem hlen]
          rfl
        have hget : ticks.getD m (0, []) = ticks[m] := by
          rw [List.getD_eq_getElem?_getD, List.getElem?_eq_getElem hlen]
          rfl
        rw [htk, runTicks_append]
        have hstep := hnoreuse m (Nat.lt_succ_self m)
        rw [hget] at hstep
        exact collect_disjoint _ _ _ hstep
      · have heq : ticks.take (m + 1) = ticks.take m := by
          rw [List.take_of_length_le (by omega), List.take_of_length_le (by omega)]
        rw [heq]
        exact ih (fun k hk => hnoreuse k (Nat.lt_succ_of_lt hk))
  · rcases Nat.lt_or_ge n ticks.length with hlen | hlen
    · have htk : ticks.take (n + 1) = ticks.take n ++ [ticks[n]] := by
        rw [List.take_succ, List.getElem?_eq_getElem hlen]
        rfl
      rw [htk, runTicks_append]
      exact runTicks_completed_mono _ _
    · have heq : ticks.take (n + 1) = ticks.take n := by
        rw [List.take_of_length_le (by omega), List.take_of_length_le (by omega)]
      rw [heq]
      exact ⟨[], (List.append_nil _).symm⟩

/-- C1 witness: the amended theorem applied to the two-tick sequence
`plainTicks`, which has no pid reuse. -/
theorem c1_lifecycle_exclusivity_witness :
    (∀ k, k < 2 →
      ∀ c ∈ (runTicks emptyState (plainTicks.take k)).completed,
        ∀ p ∈ (plainTicks.getD k (0, [])).2, c.pid ≠ p.pid)
    ∧ ((∀ c ∈ (runTicks emptyState (plainTicks.take 2)).completed,
         ∀ t ∈ (runTicks emptyState (plainTicks.take 2)).tracked, c.pid ≠ t.pid)
       ∧ ∃ r, (runTicks emptyState (plainTicks.take (2 + 1))).completed =
           (runTicks emptyState (plainTicks.take 2)).completed ++ r) :=
  ⟨by decide, c1_lifecycle_exclusivity plainTicks 2 (by decide)⟩

/-- C1 counterexample: under pid reuse the claim as stated fails.  Pid 1 is
completed at the second tick of `reuseTicks` and re-listed by the provider at
the third, after which pid 1 is present in the tracked map and in the
completed list simultaneously. -/
theorem c1_lifecycle_exclusivity_counterexample :
    ∃ c ∈ (runTicks emptyState reuseTicks).completed,
      ∃ t ∈ (runTicks emptyState reuseTicks).tracked, c.pid = t.pid := by decide

lemma completeAt_pid (now : Int) (t : TrackedProcess) : (completeAt now t).pid = t.pid :=
  rfl

lemma filter_pid_map {P : Nat} {f : TrackedProcess → TrackedProcess}
    (hpid : ∀ t, (f t).pid = t.pid) (hfix : ∀ t, t.pid = P → f t = t) :
    ∀ l : List TrackedProcess,
      (l.map f).filter (fun t => t.pid == P) = l.filter (fun t => t.pid == P)
  | [] => rfl
  | t :: l => by
    by_cases h : t.pid = P
    · rw [List.map_cons, List.filter_cons_of_pos (by simp [hpid, h]),
        List.filter_cons_of_pos (by simp [h]), hfix t h, filter_pid_map hpid hfix l]
    · rw [List.map_cons, List.filter_cons_of_neg (by simp [hpid, h]),
        List.filter_cons_of_neg (by simp [h]), filter_pid_map hpid hfix l]

lemma updateTracked_filter {P : Nat} (now : Int) (p : ProcSnapshot)
    (tracked : List TrackedProcess) (hp : p.pid ≠ P) :
    (updateTracked now tracked p).filter (fun t => t.pid == P)
      = tracked.filter (fun t => t.pid == P) := by
  unfold updateTracked
  split
  · rfl
  split
  · refine filter_pid_map ?_ ?_ tracked
    · intro t
      by_cases h : t.pid = p.pid <;> simp [h]
    · intro t ht
      have : ¬ t.pid = p.pid := fun he => hp (he.symm.trans ht)
      simp [this]
  · rw [List.filter_append, List.filter_cons_of_neg (by simp [hp]), List.filter_nil,
      List.append_nil]

lemma foldl_updateTracked_filter {P : Nat} (now : Int) :
    ∀ (ps : List ProcSnapshot) (tracked : List TrackedProcess),
      (∀ p ∈ ps, p.pid ≠ P) →
      (ps.foldl (updateTracked now) tracked).filter (fun t => t.pid == P)
        = tracked.filter (fun t => t.pid == P)
  | [], _, _ => rfl
  | p :: ps, tracked, h => by
    rw [List.foldl_cons,
      foldl_updateTracked_filter now ps (updateTracked now tracked p)
        (fun q hq => h q (List.mem_cons_of_mem p hq)),
      updateTracked_filter now p tracked (h p (List.mem_cons_self p ps))]

lemma filter_pid_of_nodup :
    ∀ l : List TrackedProcess, (l.map (fun t => t.pid)).Nodup → ∀ tr ∈ l,
      l.filter (fun t => t.pid == tr.pid) = [tr]
  | [], _, tr, h => absurd h (List.not_mem_nil tr)
  | t :: l, hnd, tr, h => by
    rw [List.map_cons, List.nodup_cons] at hnd
    obtain ⟨hnotin, hnd'⟩ := hnd
    rcases List.mem_cons.mp h with rfl | hmem
    · rw [List.filter_cons_of_pos (by simp)]
      have : l.filter (fun t => t.pid == tr.pid) = [] := by
        rw [List.filter_eq_nil_iff]
        intro u hu hueq
        exact hnotin ((beq_iff_eq.mp hueq) ▸ List.mem_map_of_mem (fun t => t.pid) hu)
      rw [this]
    · have hne : ¬ t.pid = tr.pid :=
        fun he => hnotin (he ▸ List.mem_map_of_mem (fun t => t.pid) hmem)
      rw [List.filter_cons_of_neg (by simp [hne]), filter_pid_of_nodup l hnd' tr hmem]

lemma filter_pid_map_completeAt (now : Int) (P : Nat) :
    ∀ l : List TrackedProcess,
      (l.map (completeAt now)).filter (fun c => c.pid == P)
        = (l.filter (fun t => t.pid == P)).map (completeAt now)
  | [] => rfl
  | t :: l => by
    by_cases h : t.pid = P
    · rw [List.map_cons, List.filter_cons_of_pos (by simp [completeAt_pid, h]),
        List.filter_cons_of_pos (by simp [h]), List.map_cons,
        filter_pid_map_completeAt now P l]
    · rw [List.map_cons, List.filter_cons_of_neg (by simp [completeAt_pid, h]),
        List.filter_cons_of_neg (by simp [h]), filter_pid_map_completeAt now P l]

/-- C2.  If pid P is tracked (the tracked map holds a record `tr` for it,
pids being unique as in a JavaScript `Map`) and P is absent from the
provider's list at the tick observed at `t1`, then the tick emits exactly one
completed record for P — the emitted records for P are the previous ones plus
exactly `completeAt t1 tr` — whose fields are `startTime = tr.started`,
`endTime = t1`, `duration = t1 - tr.started` and peaks copied from `tr`, and
P is no longer tracked after the tick. -/
theorem c2_completion_correctness (t1 : Int) (snap : List ProcSnapshot)
    (s : TracerState) (tr : TrackedProcess)
    (htr : tr ∈ s.tracked)
    (hnodup : (s.tracked.map (fun t => t.pid)).Nodup)
    (habsent : ∀ p ∈ snap, p.pid ≠ tr.pid) :
    (collectProcesses t1 snap s).completed.filter (fun c => c.pid == tr.pid)
        = s.completed.filter (fun c => c.pid == tr.pid) ++ [completeAt t1 tr]
    ∧ (∀ t ∈ (collectProcesses t1 snap s).tracked, t.pid ≠ tr.pid)
    ∧ (completeAt t1 tr).started = tr.started
    ∧ (completeAt t1 tr).ended = t1
    ∧ (completeAt t1 tr).duration = t1 - tr.started
    ∧ (completeAt t1 tr).maxCpu = tr.pcpu
    ∧ (completeAt t1 tr).maxMem = tr.pmem := by
  have hnotmem : tr.pid ∉ currentPids snap := by
    intro hmem
    obtain ⟨p, hp, -, hpe⟩ := mem_currentPids_iff.mp hmem
    exact habsent p hp hpe
  refine ⟨?_, ?_, rfl, rfl, rfl, rfl, rfl⟩
  · show (s.completed ++ _).filter _ = _
    rw [List.filter_append, filter_pid_map_completeAt, List.filter_comm,
      foldl_updateTracked_filter t1 snap s.tracked habsent,
      filter_pid_of_nodup s.tracked hnodup tr htr,
      List.filter_cons_of_pos (by simp [hnotmem]),
      List.filter_nil, List.map_singleton]
  · intro t ht hte
    exact hnotmem (hte ▸ tracked_mem_currentPids ht)

/-- C2 witness: the theorem applied to a state tracking pid 1 and an empty
provider snapshot at time 9. -/
theorem c2_completion_correctness_witness :
    (sampleTracked ∈ sampleState.tracked
      ∧ (sampleState.tracked.map (fun t => t.pid)).Nodup
      ∧ (∀ p ∈ ([] : List ProcSnapshot), p.pid ≠ sampleTracked.pid))
    ∧ ((collectProcesses 9 [] sampleState).completed.filter
          (fun c => c.pid == sampleTracked.pid)
        = sampleState.completed.filter (fun c => c.pid == sampleTracked.pid)
            ++ [completeAt 9 sampleTracked]
      ∧ (∀ t ∈ (collectProcesses 9 [] sampleState).tracked, t.pid ≠ sampleTracked.pid)
      ∧ (completeAt 9 sampleTracked).started = sampleTracked.started
      ∧ (completeAt 9 sampleTracked).ended = 9
      ∧ (completeAt 9 sampleTracked).duration = 9 - sampleTracked.started
      ∧ (completeAt 9 sampleTracked).maxCpu = sampleTracked.pcpu
      ∧ (completeAt 9 sampleTracked).maxMem = sampleTracked.pmem) :=
  ⟨⟨by decide, by decide, by decide⟩,
    c2_completion_correctness 9 [] sampleState sampleTracked (by decide) (by decide)
      (by decide)⟩

/-- C3.  When `finish` runs at finalize time `now`, every record still in the
tracked map is pushed to the completed list (appended after the existing
completed records, all with the same `now`), each completed with
`ended = now` without any absence observation, and the tracked map is empty
afterwards. -/
theorem c3_forced_finalization (now : Int) (s : TracerState) :
    (finish now s).tracked = []
    ∧ (finish now s).completed = s.completed ++ s.tracked.map (completeAt now)
    ∧ ∀ t : TrackedProcess, (completeAt now t).ended = now :=
  ⟨rfl, rfl, fun _ => rfl⟩

lemma updateTracked_started_le (now : Int) (p : ProcSnapshot)
    (tracked : List TrackedProcess) (hp : p.started = none)
    (h : ∀ t ∈ tracked, t.started ≤ now) :
    ∀ t ∈ updateTracked now tracked p, t.started ≤ now := by
  unfold updateTracked
  split
  · exact h
  split
  · intro t ht
    obtain ⟨u, hu, rfl⟩ := List.mem_map.mp ht
    by_cases hc : u.pid == p.pid <;> simp [hc, h u hu]
  · intro t ht
    rcases List.mem_append.mp ht with h1 | h2
    · exact h t h1
    · rw [List.mem_singleton.mp h2]
      simp [hp]

lemma foldl_updateTracked_started_le (now : Int) :
    ∀ (ps : List ProcSnapshot) (tracked : List TrackedProcess),
      (∀ p ∈ ps, p.started = none) → (∀ t ∈ tracked, t.started ≤ now) →
      ∀ t ∈ ps.foldl (updateTracked now) tracked, t.started ≤ now
  | [], _, _, h => h
  | p :: ps, tracked, hps, h =>
    foldl_updateTracked_started_le now ps (updateTracked now tracked p)
      (fun q hq => hps q (List.mem_cons_of_mem p hq))
      (updateTracked_started_le now p tracked (hps p (List.mem_cons_self p ps)) h)

lemma collect_duration_inv (tprev now : Int) (snap : List ProcSnapshot)
    (s : TracerState) (hle : tprev ≤ now)
    (hsnap : ∀ p ∈ snap, p.started = none)
    (h1 : ∀ t ∈ s.tracked, t.started ≤ tprev)
    (h2 : ∀ c ∈ s.completed, 0 ≤ c.duration) :
    (∀ t ∈ (collectProcesses now snap s).tracked, t.started ≤ now)
    ∧ (∀ c ∈ (collectProcesses now snap s).completed, 0 ≤ c.duration) := by
  have hfold : ∀ t ∈ snap.foldl (updateTracked now) s.tracked, t.started ≤ now :=
    foldl_updateTracked_started_le now snap s.tracked hsnap
      (fun t ht => le_trans (h1 t ht) hle)
  constructor
  · intro t ht
    simp only [collectProcesses, List.mem_filter] at ht
    exact hfold t ht.1
  · intro c hc
    simp only [collectProcesses, List.mem_append, List.mem_map, List.mem_filter] at hc
    rcases hc with hold | ⟨u, ⟨hu, -⟩, rfl⟩
    · exact h2 c hold
    · show 0 ≤ now - u.started
      exact sub_nonneg.mpr (hfold u hu)

lemma run_duration_inv :
    ∀ (ticks : List Tick) (t0 : Int) (s : TracerState),
      timesMono t0 ticks = true → noProviderStart ticks = true →
      (∀ t ∈ s.tracked, t.started ≤ t0) → (∀ c ∈ s.completed, 0 ≤ c.duration) →
      (∀ t ∈ (runTicks s ticks).tracked, t.started ≤ lastTickTime t0 ticks)
      ∧ (∀ c ∈ (runTicks s ticks).completed, 0 ≤ c.duration)
  | [], _, _, _, _, h1, h2 => ⟨h1, h2⟩
  | tk :: rest, t0, s, hmono, hstart, h1, h2 => by
    rw [timesMono, Bool.and_eq_true, decide_eq_true_eq] at hmono
    rw [noProviderStart, List.all_cons, Bool.and_eq_true] at hstart
    have hsnap : ∀ p ∈ tk.2, p.started = none := by
      intro p hp
      have := List.all_eq_true.mp hstart.1 p hp
      simpa [Option.isNone_iff_eq_none] using this
    obtain ⟨h1n, h2n⟩ := collect_duration_inv t0 tk.1 tk.2 s hmono.1 hsnap h1 h2
    exact run_duration_inv rest tk.1 (collectProcesses tk.1 tk.2 s) hmono.2 hstart.2
      h1n h2n

/-- C4 (amended).  Every completed record produced by a run from the empty
state — whether by absence-triggered completion or by forced finalization at
a time `tf` no earlier than the last tick — has `duration ≥ 0`, provided the
observation times are non-decreasing and every record's `startTime` was taken
from the observation clock (the provider reported no start time).  When the
`startTime` is the provider's reported start time instead, the duration can
be negative (see the counterexample). -/
theorem c4_duration_nonnegativity (ticks : List Tick) (t0 tf : Int)
    (hmono : timesMono t0 ticks = true)
    (hstart : noProviderStart ticks = true)
    (hfin : lastTickTime t0 ticks ≤ tf) :
    (∀ c ∈ (runTicks emptyState ticks).completed, 0 ≤ c.duration)
    ∧ (∀ c ∈ (finish tf (runTicks emptyState ticks)).completed, 0 ≤ c.duration) := by
  obtain ⟨h1, h2⟩ := run_duration_inv ticks t0 emptyState hmono hstart
    (fun t ht => absurd ht (List.not_mem_nil t))
    (fun c hc => absurd hc (List.not_mem_nil c))
  refine ⟨h2, ?_⟩
  intro c hc
  rcases List.mem_append.mp hc with hold | hnew
  · exact h2 c hold
  · obtain ⟨u, hu, rfl⟩ := List.mem_map.mp hnew
    show 0 ≤ tf - u.started
    exact sub_nonneg.mpr (le_trans (h1 u hu) hfin)

/-- C4 witness: the amended theorem applied to the reuse-free sequence
`plainTicks` (observation times 0 then 5, no provider start times) finalized
at time 10. -/
theorem c4_duration_nonnegativity_witness :
    (timesMono 0 plainTicks = true ∧ noProviderStart plainTicks = true
      ∧ lastTickTime 0 plainTicks ≤ 10)
    ∧ ((∀ c ∈ (runTicks emptyState plainTicks).completed, 0 ≤ c.duration)
      ∧ (∀ c ∈ (finish 10 (runTicks emptyState plainTicks)).completed,
          0 ≤ c.duration)) :=
  ⟨⟨by decide, by decide, by decide⟩,
    c4_duration_nonnegativity plainTicks 0 10 (by decide) (by decide) (by decide)⟩

/-- C4 counterexample: with a provider-reported start time (1000) later than
the completion tick (20), the emitted completed record has a negative
duration, so the claim as stated (duration ≥ 0 including when the start time
came from the provider) fails on the code. -/
theorem c4_duration_nonnegativity_counterexample :
    ∃ c ∈ (runTicks emptyState negTicks).completed, c.duration < 0 := by decide

lemma evolves_refl (a : TrackedProcess) : Evolves a a :=
  ⟨rfl, rfl, rfl, rfl, rfl, le_refl _, le_refl _⟩

lemma evolves_trans {a b c : TrackedProcess} (h1 : Evolves a b) (h2 : Evolves b c) :
    Evolves a c :=
  ⟨h2.1.trans h1.1, h2.2.1.trans h1.2.1, h2.2.2.1.trans h1.2.2.1,
    h2.2.2.2.1.trans h1.2.2.2.1, h2.2.2.2.2.1.trans h1.2.2.2.2.1,
    le_trans h1.2.2.2.2.2.1 h2.2.2.2.2.2.1, le_trans h1.2.2.2.2.2.2 h2.2.2.2.2.2.2⟩

lemma updateTracked_evolves (now : Int) (p : ProcSnapshot)
    (tracked : List TrackedProcess) :
    ∀ t ∈ updateTracked now tracked p,
      (∃ u ∈ tracked, Evolves u t) ∨ t.pid ∉ tracked.map (fun x => x.pid) := by
  unfold updateTracked
  split
  · intro t ht
    exact Or.inl ⟨t, ht, evolves_refl t⟩
  split
  · intro t ht
    obtain ⟨u, hu, rfl⟩ := List.mem_map.mp ht
    refine Or.inl ⟨u, hu, ?_⟩
    by_cases hc : u.pid == p.pid
    · simp only [if_pos hc]
      exact ⟨rfl, rfl, rfl, rfl, rfl, le_max_left _ _, le_max_left _ _⟩
    · simp only [if_neg hc]
      exact evolves_refl u
  · next hany =>
    intro t ht
    rcases List.mem_append.mp ht with h1 | h2
    · exact Or.inl ⟨t, h1, evolves_refl t⟩
    · refine Or.inr ?_
      rw [List.mem_singleton.mp h2]
      intro hmem
      obtain ⟨u, hu, hue⟩ := List.mem_map.mp hmem
      exact hany (List.any_eq_true.mpr ⟨u, hu, beq_iff_eq.mpr hue⟩)

lemma updateTracked_pid_mono (now : Int) (p : ProcSnapshot)
    (tracked : List TrackedProcess) {q : Nat}
    (h : q ∈ tracked.map (fun x => x.pid)) :
    q ∈ (updateTracked now tracked p).map (fun x => x.pid) := by
  unfold updateTracked
  split
  · exact h
  split
  · have : (tracked.map (fun t =>
        if t.pid == p.pid then
          { t with pcpu := max t.pcpu (p.cpu.getD 0), pmem := max t.pmem (p.mem.getD 0) }
        else t)).map (fun x => x.pid) = tracked.map (fun x => x.pid) := by
      rw [List.map_map]
      apply List.map_congr_left
      intro u _
      by_cases hc : u.pid = p.pid <;> simp [hc]
    rw [this]
    exact h
  · rw [List.map_append]
    exact List.mem_append_left _ h

lemma foldl_updateTracked_evolves (now : Int) :
    ∀ (ps : List ProcSnapshot) (tracked : List TrackedProcess),
      ∀ t ∈ ps.foldl (updateTracked now) tracked,
        (∃ u ∈ tracked, Evolves u t) ∨ t.pid ∉ tracked.map (fun x => x.pid)
  | [], _, t, ht => Or.inl ⟨t, ht, evolves_refl t⟩
  | p :: ps, tracked, t, ht => by
    rw [List.foldl_cons] at ht
    rcases foldl_updateTracked_evolves now ps (updateTracked now tracked p) t ht with
      ⟨m, hm, hev⟩ | hnot
    · rcases updateTracked_evolves now p tracked m hm with ⟨u, hu, hev0⟩ | hmnot
      · exact Or.inl ⟨u, hu, evolves_trans hev0 hev⟩
      · refine Or.inr ?_
        rw [hev.1]
        exact hmnot
    · refine Or.inr ?_
      intro hmem
      exact hnot (updateTracked_pid_mono now p tracked hmem)

lemma pid_inj_of_nodup {l : List TrackedProcess}
    (h : (l.map (fun t => t.pid)).Nodup) {a b : TrackedProcess}
    (ha : a ∈ l) (hb : b ∈ l) (he : a.pid = b.pid) : a = b :=
  List.inj_on_of_nodup_map h ha hb he

/-- C5.  Across a tick in which pid P stays tracked, the record for P keeps
its identity fields (`name`, `command`, `params`) and its `startTime`, and its
peak cpu and peak memory never decrease; moreover one observation of P
updates the record exactly to `max(existing, observed)` in both peaks, a
missing observed value being treated as zero (`proc.cpu || 0`). -/
theorem c5_peak_monotonicity (now : Int) (snap : List ProcSnapshot)
    (s : TracerState) (tr tr2 : TrackedProcess)
    (hnodup : (s.tracked.map (fun t => t.pid)).Nodup)
    (htr : tr ∈ s.tracked)
    (htr2 : tr2 ∈ (collectProcesses now snap s).tracked)
    (hpid : tr2.pid = tr.pid) :
    (tr.pcpu ≤ tr2.pcpu ∧ tr.pmem ≤ tr2.pmem)
    ∧ (tr2.name = tr.name ∧ tr2.command = tr.command ∧ tr2.params = tr.params
        ∧ tr2.started = tr.started)
    ∧ (∀ p : ProcSnapshot, p.pid = tr.pid → p.pid ≠ 0 →
        updateTracked now s.tracked p = s.tracked.map (fun u =>
          if u.pid == p.pid then
            { u with pcpu := max u.pcpu (p.cpu.getD 0)
                     pmem := max u.pmem (p.mem.getD 0) }
          else u)) := by
  have htr2f : tr2 ∈ snap.foldl (updateTracked now) s.tracked := by
    simp only [collectProcesses, List.mem_filter] at htr2
    exact htr2.1
  have hev : Evolves tr tr2 := by
    rcases foldl_updateTracked_evolves now snap s.tracked tr2 htr2f with
      ⟨u, hu, hev⟩ | hnot
    · have : u = tr := pid_inj_of_nodup hnodup hu htr (hev.1.symm.trans hpid)
      exact this ▸ hev
    · exact absurd (hpid ▸ List.mem_map_of_mem (fun t => t.pid) htr) hnot
  refine ⟨⟨hev.2.2.2.2.2.1, hev.2.2.2.2.2.2⟩,
    ⟨hev.2.1, hev.2.2.1, hev.2.2.2.1, hev.2.2.2.2.1⟩, ?_⟩
  intro p hp hz
  have hany : s.tracked.any (fun t => t.pid == p.pid) = true :=
    List.any_eq_true.mpr ⟨tr, htr, beq_iff_eq.mpr (hp ▸ rfl)⟩
  rw [updateTracked, if_neg hz, if_pos hany]

/-- C5 witness: the theorem applied to a state tracking pid 1 with peaks 2
and 3 and a snapshot observing pid 1 with cpu 7 and mem 1; after the tick the
record has peaks 7 and 3. -/
theorem c5_peak_monotonicity_witness :
    ((sampleState.tracked.map (fun t => t.pid)).Nodup
      ∧ sampleTracked ∈ sampleState.tracked
      ∧ (⟨1, "a", "", "", 5, 7, 3⟩ : TrackedProcess)
          ∈ (collectProcesses 6 [sampleObs] sampleState).tracked
      ∧ (⟨1, "a", "", "", 5, 7, 3⟩ : TrackedProcess).pid = sampleTracked.pid)
    ∧ ((sampleTracked.pcpu ≤ (⟨1, "a", "", "", 5, 7, 3⟩ : TrackedProcess).pcpu
        ∧ sampleTracked.pmem ≤ (⟨1, "a", "", "", 5, 7, 3⟩ : TrackedProcess).pmem)
      ∧ ((⟨1, "a", "", "", 5, 7, 3⟩ : TrackedProcess).name = sampleTracked.name
        ∧ (⟨1, "a", "", "", 5, 7, 3⟩ : TrackedProcess).command = sampleTracked.command
        ∧ (⟨1, "a", "", "", 5, 7, 3⟩ : TrackedProcess).params = sampleTracked.params
        ∧ (⟨1, "a", "", "", 5, 7, 3⟩ : TrackedProcess).started = sampleTracked.started)
      ∧ (∀ p : ProcSnapshot, p.pid = sampleTracked.pid → p.pid ≠ 0 →
          updateTracked 6 sampleState.tracked p = sampleState.tracked.map (fun u =>
            if u.pid == p.pid then
              { u with pcpu := max u.pcpu (p.cpu.getD 0)
                       pmem := max u.pmem (p.mem.getD 0) }
            else u))) :=
  ⟨⟨by decide, by decide, by decide, by decide⟩,
    c5_peak_monotonicity 6 [sampleObs] sampleState sampleTracked
      ⟨1, "a", "", "", 5, 7, 3⟩ (by decide) (by decide) (by decide) (by decide)⟩

lemma schedTrace_expected (F : Int) :
    ∀ (durs : List Int) (E fire : Int),
      (schedTrace F E fire durs).map Prod.snd
        = (List.range durs.length).map (fun (k : Nat) => E + ((k : Int) + 1) * F)
  | [], _, _ => rfl
  | d :: durs, E, fire => by
    simp only [schedTrace, List.map_cons, List.length_cons]
    rw [schedTrace_expected F durs (E + F), List.range_succ_eq_map, List.map_cons,
      List.map_map]
    congr 1
    · push_cast
      ring
    · apply List.map_congr_left
      intro k _
      show E + F + ((k : Int) + 1) * F = E + (((k + 1 : Nat) : Int) + 1) * F
      push_cast
      ring

lemma schedTrace_fires (F : Int) :
    ∀ (durs : List Int) (E : Int),
      (∀ d ∈ durs, 0 ≤ d ∧ d ≤ F) →
      schedTrace F E E durs
        = (List.range durs.length).map
            (fun (k : Nat) => (E + (k : Int) * F, E + ((k : Int) + 1) * F))
  | [], _, _ => rfl
  | d :: durs, E, h => by
    have hd := h d (List.mem_cons_self d durs)
    have hfire : (E + d) + max 0 ((E + F) - (E + d)) = E + F := by
      rw [max_eq_right (by omega)]
      ring
    simp only [schedTrace, List.length_cons]
    rw [hfire, schedTrace_fires F durs (E + F)
        (fun x hx => h x (List.mem_cons_of_mem d hx)),
      List.range_succ_eq_map, List.map_cons, List.map_map]
    congr 1
    · rw [Prod.ext_iff]
      constructor
      · push_cast
        ring
      · push_cast
        ring
    · apply List.map_congr_left
      intro k _
      show (E + F + (k : Int) * F, E + F + ((k : Int) + 1) * F)
        = (E + ((k + 1 : Nat) : Int) * F, E + (((k + 1 : Nat) : Int) + 1) * F)
      rw [Prod.ext_iff]
      constructor
      · push_cast
        ring
      · push_cast
        ring

/-- C6.  For target interval `F` and schedule origin `T0` (indexing ticks
from 0): unconditionally, the `expectedScheduleTime` set when tick `k`
completes is `T0 + (k+1)·F`; and when every tick's work takes between 0 and
`F`, tick `k` fires exactly at `T0 + k·F`, independent of the work durations
— in particular with `F = 5000` and the first tick's work taking 800, the
second tick fires at `T0 + 5000`, not `T0 + 5800`. -/
theorem c6_drift_corrected_scheduling (F T0 : Int) (durs : List Int) :
    ((schedTrace F T0 T0 durs).map Prod.snd
        = (List.range durs.length).map (fun (k : Nat) => T0 + ((k : Int) + 1) * F))
    ∧ ((∀ d ∈ durs, 0 ≤ d ∧ d ≤ F) →
        schedTrace F T0 T0 durs
          = (List.range durs.length).map
              (fun (k : Nat) => (T0 + (k : Int) * F, T0 + ((k : Int) + 1) * F))) :=
  ⟨schedTrace_expected F durs T0 T0, fun h => schedTrace_fires F durs T0 h⟩

/-- C6 witness: with `F = 5000`, origin 100000 and first-tick work of 800ms,
the second tick fires at 105000 = T0 + 5000. -/
theorem c6_drift_corrected_scheduling_witness :
    (∀ d ∈ ([800, 0] : List Int), 0 ≤ d ∧ d ≤ 5000)
    ∧ schedTrace 5000 100000 100000 [800, 0]
        = (List.range ([800, 0] : List Int).length).map
            (fun (k : Nat) => (100000 + (k : Int) * 5000, 100000 + ((k : Int) + 1) * 5000))
    ∧ schedTrace 5000 100000 100000 [800, 0]
        = [(100000, 105000), (105000, 110000)] :=
  ⟨by decide, (c6_drift_corrected_scheduling 5000 100000 [800, 0]).2 (by decide),
    by decide⟩

/-- C7.  The appended network and disk samples are rate-to-volume conversions
`floor(rateBytesPerSec * (intervalMs / 1000) / 1024 / 1024)` of the summed
(respectively defaulted) provider rates; the first tick of a run has elapsed
interval 0 (the `statCollectTime` field starts at the falsy 0) and therefore
yields volume 0; and a summed rate of 2097152 bytes/s over a 5000ms interval
yields exactly 10 MB. -/
theorem c7_throughput_conversion :
    (∀ (data : List NetworkStatsData) (t iv : Int),
        networkTransform data t iv
          = { time := t
              rxMb := Int.floor ((data.map (fun d => d.rx_sec)).sum
                * ((iv : ℚ) / 1000) / 1024 / 1024)
              txMb := Int.floor ((data.map (fun d => d.tx_sec)).sum
                * ((iv : ℚ) / 1000) / 1024 / 1024) })
    ∧ (∀ (data : FsStatsData) (t iv : Int),
        diskTransform data t iv
          = { time := t
              rxMb := Int.floor ((data.rx_sec.getD 0) * ((iv : ℚ) / 1000) / 1024 / 1024)
              wxMb := Int.floor ((data.wx_sec.getD 0) * ((iv : ℚ) / 1000) / 1024 / 1024) })
    ∧ (∀ t : Int, timeIntervalOf 0 t = 0)
    ∧ (∀ (data : List NetworkStatsData) (t : Int), (networkTransform data t 0).rxMb = 0)
    ∧ (∀ t : Int, (networkTransform [⟨2097152, 0⟩] t 5000).rxMb = 10) := by
  refine ⟨fun _ _ _ => rfl, fun _ _ _ => rfl, fun _ => rfl, ?_, ?_⟩
  · intro data t
    show Int.floor ((data.map (fun d => d.rx_sec)).sum * (((0 : Int) : ℚ) / 1000) / 1024 / 1024) = 0
    norm_num
  · intro t
    show Int.floor (([(⟨2097152, 0⟩ : NetworkStatsData)].map (fun d => d.rx_sec)).sum
      * (((5000 : Int) : ℚ) / 1000) / 1024 / 1024) = 10
    have harg : (([(⟨2097152, 0⟩ : NetworkStatsData)].map (fun d => d.rx_sec)).sum
        * (((5000 : Int) : ℚ) / 1000) / 1024 / 1024) = ((10 : Int) : ℚ) := by
      push_cast
      norm_num
    rw [harg, Int.floor_intCast]

/-- C8.  The chart selection takes exactly the `maxCount` completed processes
of largest duration: the selected slice has length `min K n`, every selected
process lasts at least as long as every unselected one, selected and
unselected together are a permutation of the input, and the final output is
the selected slice re-sorted ascending by start time. -/
theorem c8_top_k_selection (processes : List CompletedProcess) (K : Nat) :
    List.Perm (selectTopProcessesByDuration processes K)
      ((processes.insertionSort durDesc).take K)
    ∧ List.Pairwise startAsc (selectTopProcessesByDuration processes K)
    ∧ ((processes.insertionSort durDesc).take K).length = min K processes.length
    ∧ (∀ x ∈ (processes.insertionSort durDesc).take K,
        ∀ y ∈ (processes.insertionSort durDesc).drop K, y.duration ≤ x.duration)
    ∧ List.Perm ((processes.insertionSort durDesc).take K
        ++ (processes.insertionSort durDesc).drop K) processes := by
  refine ⟨List.perm_insertionSort startAsc _, List.sorted_insertionSort startAsc _,
    ?_, ?_, ?_⟩
  · rw [List.length_take, List.length_insertionSort]
  · have hs : List.Pairwise durDesc (processes.insertionSort durDesc) :=
      List.sorted_insertionSort durDesc processes
    rw [← List.take_append_drop K (processes.insertionSort durDesc)] at hs
    exact fun x hx y hy => (List.pairwise_append.mp hs).2.2 x hx y hy
  · rw [List.take_append_drop]
    exact List.perm_insertionSort durDesc processes

/-- C8 witness: on the specification's scenario (durations 100, 500, 300,
700, 200 with start times 1..5 and K = 3) the selected set is exactly the
durations 700, 500, 300, rendered in start-time order 500, 300, 700; the
duration-700 record is selected, the duration-200 record is not, and the
theorem yields 200 ≤ 700. -/
theorem c8_top_k_selection_witness :
    (demoTop ∈ (demoProcs.insertionSort durDesc).take 3
      ∧ demoLow ∈ (demoProcs.insertionSort durDesc).drop 3)
    ∧ demoLow.duration ≤ demoTop.duration
    ∧ (selectTopProcessesByDuration demoProcs 3).map (fun p => p.duration)
        = [500, 300, 700] :=
  ⟨⟨by decide, by decide⟩,
    (c8_top_k_selection demoProcs 3).2.2.2.1 demoTop (by decide) demoLow (by decide),
    by decide⟩

/-- C9.  `load` is a total function on every outcome of the persisted
document (the shallow form of "never throws"): a missing document and a
document whose read or parse throws both yield the empty state, and a parsed
document's absent fields default to the empty lists. -/
theorem c9_graceful_empty_load :
    load .missing = { completed := [], tracked := [] }
    ∧ load .corrupt = { completed := [], tracked := [] }
    ∧ (∀ (c : Option (List CompletedProcess)) (t : Option (List TrackedProcess)),
        load (.parsed c t) = { completed := c.getD [], tracked := t.getD [] }) :=
  ⟨rfl, rfl, fun _ _ => rfl⟩

/-- C10 (implicit).  For every completed process row of the legacy Gantt
chart, the rendered span start is `min(started, ended)`, so the span start
never exceeds the span end even for a record whose start time is later than
its end time. -/
theorem c10_gantt_span_clamping (proc : CompletedProcess) :
    (ganttSpan proc).1 = min proc.started proc.ended
    ∧ (ganttSpan proc).1 ≤ (ganttSpan proc).2 :=
  ⟨rfl, min_le_right _ _⟩

end WorkflowTelemetry
